import Mathlib

/-!
Verification development for the ThunderMirror receive side
(`src/shared/src/protocol.rs` and `src/win/src/main.rs`).

Bytes are modelled as `Nat` values (< 256 where produced by the code);
big-endian multi-byte integers are read and written explicitly, fallible
Rust code is modelled with `Except`, and a `bytes::Buf` read past the end
of a buffer (a Rust panic) is modelled with `Option.none`.
-/

namespace ThunderMirror

/-- Big-endian byte encoding of `n` on `k` bytes, most significant byte first.
This is what the `bytes` crate's `put_u8`/`put_u16`/`put_u32`/`put_u64` emit
(with `n` reduced modulo `2 ^ (8 * k)`, as the Rust integer types enforce). -/
def beBytes : Nat → Nat → List Nat
  | _, 0 => []
  | n, k + 1 => beBytes (n / 256) k ++ [n % 256]

/-- Big-endian read of a byte list, as `get_u8`/`get_u16`/`get_u32`/`get_u64` do. -/
def readBE (l : List Nat) : Nat :=
  l.foldl (fun acc b => acc * 256 + b) 0

/-- Read the big-endian integer stored on `len` bytes at offset `off` of `l`. -/
def readField (l : List Nat) (off len : Nat) : Nat :=
  readBE ((l.drop off).take len)

theorem length_beBytes (n k : Nat) : (beBytes n k).length = k := by
  induction k generalizing n with
  | zero => rfl
  | succ k ih => simp [beBytes, ih]

theorem readBE_append_singleton (l : List Nat) (b : Nat) :
    readBE (l ++ [b]) = readBE l * 256 + b := by
  simp [readBE, List.foldl_append]

theorem readBE_beBytes (n k : Nat) (h : n < 256 ^ k) : readBE (beBytes n k) = n := by
  induction k generalizing n with
  | zero =>
    interval_cases n
    rfl
  | succ k ih =>
    have hdiv : n / 256 < 256 ^ k := by
      rw [Nat.div_lt_iff_lt_mul (by norm_num)]
      calc n < 256 ^ (k + 1) := h
        _ = 256 ^ k * 256 := by ring
    rw [beBytes, readBE_append_singleton, ih _ hdiv]
    omega

theorem readField_append_right (a b : List Nat) (off len : Nat) (h : a.length ≤ off) :
    readField (a ++ b) off len = readField b (off - a.length) len := by
  unfold readField
  rw [List.drop_append_eq_append_drop, List.drop_eq_nil_of_le h, List.nil_append]

theorem readField_front (a b : List Nat) (off len : Nat) (h : off + len ≤ a.length) :
    readField (a ++ b) off len = readField a off len := by
  unfold readField
  rw [List.drop_append_eq_append_drop, List.take_append_eq_append_take]
  have hlen : len - (a.drop off).length = 0 := by simp; omega
  rw [hlen]
  simp

theorem readField_beBytes_head (n k : Nat) (rest : List Nat) (h : n < 256 ^ k) :
    readField (beBytes n k ++ rest) 0 k = n := by
  rw [readField_front _ _ _ _ (by simp [length_beBytes])]
  unfold readField
  rw [List.drop_zero, List.take_of_length_le (by simp [length_beBytes])]
  exact readBE_beBytes n k h

theorem readField_drop (l : List Nat) (off len d : Nat) :
    readField (l.drop d) off len = readField l (d + off) len := by
  unfold readField
  rw [List.drop_drop]

/-! ### Frame types and errors (`src/shared/src/protocol.rs`, `src/shared/src/error.rs`) -/

/-- The four frame types of `src/shared/src/protocol.rs` (and the identical enum in
`src/win/src/main.rs`). -/
inductive FrameType where
  | RawFrame
  | H264Frame
  | Control
  | Stats
deriving DecidableEq

/-- The `#[repr(u8)]` tag of a frame type. -/
def FrameType.tag : FrameType → Nat
  | .RawFrame => 0
  | .H264Frame => 1
  | .Control => 2
  | .Stats => 3

/-- Conversion `TryFrom<u8> for FrameType`: tags 0..3 map to the four variants, anything else
is rejected (`None` here; the two Rust impls wrap this in their error types). -/
def FrameType.ofTag : Nat → Option FrameType
  | 0 => some .RawFrame
  | 1 => some .H264Frame
  | 2 => some .Control
  | 3 => some .Stats
  | _ => none

theorem FrameType.ofTag_tag (t : FrameType) : FrameType.ofTag t.tag = some t := by
  cases t <;> rfl

theorem FrameType.ofTag_eq_none (n : Nat) (h : 4 ≤ n) : FrameType.ofTag n = none := by
  match n, h with
  | n + 4, _ => rfl

theorem FrameType.tag_lt_four (t : FrameType) : t.tag < 4 := by
  cases t <;> simp [FrameType.tag]

/-- The error enum of `src/shared/src/error.rs`; the operations modelled here only
ever construct the `Protocol` variant (`Error::protocol`). -/
inductive Error where
  | protocol : String → Error
deriving DecidableEq

/-- Conversion `TryFrom<u8> for FrameType` in `src/shared/src/protocol.rs`. -/
def FrameType.tryFrom (value : Nat) : Except Error FrameType :=
  match FrameType.ofTag value with
  | some t => .ok t
  | none => .error (.protocol ("Unknown frame type: " ++ toString value))

/-! ### Frame header codec (`src/shared/src/protocol.rs`) -/

/-- Constant `PROTOCOL_VERSION` in `src/shared/src/protocol.rs`. -/
def PROTOCOL_VERSION : Nat := 1

/-- Constant `MAX_FRAME_SIZE` in `src/shared/src/protocol.rs` (8 MB). -/
def MAX_FRAME_SIZE : Nat := 8 * 1024 * 1024

/-- Constant `FrameHeader::SIZE` (26 bytes). -/
def HEADER_SIZE : Nat := 26

/-- Structure `FrameHeader` of `src/shared/src/protocol.rs`. Machine-integer fields are `Nat`;
`FrameHeader.Wf` records the ranges the Rust types `u8`/`u64`/`u16`/`u32` enforce. -/
structure FrameHeader where
  version : Nat
  frame_type : FrameType
  sequence : Nat
  timestamp_us : Nat
  width : Nat
  height : Nat
  payload_size : Nat
deriving DecidableEq

/-- Field ranges enforced by the Rust field types of `FrameHeader`. -/
def FrameHeader.Wf (h : FrameHeader) : Prop :=
  h.version < 2 ^ 8 ∧ h.sequence < 2 ^ 64 ∧ h.timestamp_us < 2 ^ 64 ∧
    h.width < 2 ^ 16 ∧ h.height < 2 ^ 16 ∧ h.payload_size < 2 ^ 32

instance (h : FrameHeader) : Decidable h.Wf := by
  unfold FrameHeader.Wf
  infer_instance

/-- The 26 header bytes written for the given raw field values, in the order and
big-endian widths of `FrameHeader::encode`:
version(1) frame_type(1) sequence(8) timestamp_us(8) width(2) height(2) payload_size(4). -/
def headerBytes (version ftag sequence timestamp_us width height payload_size : Nat) :
    List Nat :=
  beBytes version 1 ++ beBytes ftag 1 ++ beBytes sequence 8 ++ beBytes timestamp_us 8 ++
    beBytes width 2 ++ beBytes height 2 ++ beBytes payload_size 4

/-- Operation `FrameHeader::encode` (the `BytesMut` it appends, as a byte list). -/
def FrameHeader.encode (h : FrameHeader) : List Nat :=
  headerBytes h.version h.frame_type.tag h.sequence h.timestamp_us h.width h.height
    h.payload_size

theorem length_headerBytes (v t s ts w ht p : Nat) :
    (headerBytes v t s ts w ht p).length = 26 := by
  simp [headerBytes, length_beBytes]

theorem length_encode (h : FrameHeader) : h.encode.length = 26 :=
  length_headerBytes ..

/-- Operation `FrameHeader::decode`: requires 26 remaining bytes, rejects `version ≠ 1`,
rejects unknown frame types, then reads the big-endian fields. -/
def FrameHeader.decode (buf : List Nat) : Except Error FrameHeader :=
  if buf.length < HEADER_SIZE then
    .error (.protocol "Header too short")
  else
    let version := readField buf 0 1
    if version ≠ PROTOCOL_VERSION then
      .error (.protocol ("Unsupported version: " ++ toString version))
    else
      match FrameType.tryFrom (readField buf 1 1) with
      | .error e => .error e
      | .ok frame_type =>
        .ok { version := version, frame_type := frame_type,
              sequence := readField buf 2 8, timestamp_us := readField buf 10 8,
              width := readField buf 18 2, height := readField buf 20 2,
              payload_size := readField buf 22 4 }

theorem readField_skip_beBytes (x k : Nat) (rest : List Nat) (off len : Nat) (h : k ≤ off) :
    readField (beBytes x k ++ rest) off len = readField rest (off - k) len := by
  rw [readField_append_right _ _ _ _ (by rw [length_beBytes]; exact h), length_beBytes]

/-- Reading the seven header fields (and the bytes after the header) back out of
an encoded header followed by arbitrary bytes. -/
theorem headerBytes_fields (v t s ts w ht p : Nat) (rest : List Nat)
    (hv : v < 2 ^ 8) (htg : t < 2 ^ 8) (hs : s < 2 ^ 64) (hts : ts < 2 ^ 64)
    (hw : w < 2 ^ 16) (hh : ht < 2 ^ 16) (hp : p < 2 ^ 32) :
    readField (headerBytes v t s ts w ht p ++ rest) 0 1 = v ∧
    readField (headerBytes v t s ts w ht p ++ rest) 1 1 = t ∧
    readField (headerBytes v t s ts w ht p ++ rest) 2 8 = s ∧
    readField (headerBytes v t s ts w ht p ++ rest) 10 8 = ts ∧
    readField (headerBytes v t s ts w ht p ++ rest) 18 2 = w ∧
    readField (headerBytes v t s ts w ht p ++ rest) 20 2 = ht ∧
    readField (headerBytes v t s ts w ht p ++ rest) 22 4 = p ∧
    (headerBytes v t s ts w ht p ++ rest).drop 26 = rest := by
  simp only [headerBytes, List.append_assoc]
  refine ⟨?_, ?_, ?_, ?_, ?_, ?_, ?_, ?_⟩
  · exact readField_beBytes_head v 1 _ (by norm_num at hv ⊢; omega)
  · rw [readField_skip_beBytes _ _ _ _ _ (by norm_num)]
    exact readField_beBytes_head t 1 _ (by norm_num at htg ⊢; omega)
  · rw [readField_skip_beBytes _ _ _ _ _ (by norm_num),
      readField_skip_beBytes _ _ _ _ _ (by norm_num)]
    exact readField_beBytes_head s 8 _ (by norm_num at hs ⊢; omega)
  · rw [readField_skip_beBytes _ _ _ _ _ (by norm_num),
      readField_skip_beBytes _ _ _ _ _ (by norm_num),
      readField_skip_beBytes _ _ _ _ _ (by norm_num)]
    exact readField_beBytes_head ts 8 _ (by norm_num at hts ⊢; omega)
  · rw [readField_skip_beBytes _ _ _ _ _ (by norm_num),
      readField_skip_beBytes _ _ _ _ _ (by norm_num),
      readField_skip_beBytes _ _ _ _ _ (by norm_num),
      readField_skip_beBytes _ _ _ _ _ (by norm_num)]
    exact readField_beBytes_head w 2 _ (by norm_num at hw ⊢; omega)
  · rw [readField_skip_beBytes _ _ _ _ _ (by norm_num),
      readField_skip_beBytes _ _ _ _ _ (by norm_num),
      readField_skip_beBytes _ _ _ _ _ (by norm_num),
      readField_skip_beBytes _ _ _ _ _ (by norm_num),
      readField_skip_beBytes _ _ _ _ _ (by norm_num)]
    exact readField_beBytes_head ht 2 _ (by norm_num at hh ⊢; omega)
  · rw [readField_skip_beBytes _ _ _ _ _ (by norm_num),
      readField_skip_beBytes _ _ _ _ _ (by norm_num),
      readField_skip_beBytes _ _ _ _ _ (by norm_num),
      readField_skip_beBytes _ _ _ _ _ (by norm_num),
      readField_skip_beBytes _ _ _ _ _ (by norm_num),
      readField_skip_beBytes _ _ _ _ _ (by norm_num)]
    exact readField_beBytes_head p 4 _ (by norm_num at hp ⊢; omega)
  · rw [← List.append_assoc, ← List.append_assoc, ← List.append_assoc,
      ← List.append_assoc, ← List.append_assoc, ← List.append_assoc]
    exact List.drop_left' (by simp [length_beBytes])

theorem FrameType.tryFrom_tag (t : FrameType) : FrameType.tryFrom t.tag = .ok t := by
  simp [FrameType.tryFrom, FrameType.ofTag_tag]

theorem readField_one (l : List Nat) (off : Nat) (h : off < l.length) :
    readField l off 1 = l.getD off 0 := by
  unfold readField readBE
  rw [List.drop_eq_getElem_cons h, List.getD_eq_getElem l 0 h]
  simp only [List.take_succ_cons, List.take_zero, List.foldl_cons, List.foldl_nil]
  omega

/-- Decoding an encoded well-formed version-1 header returns the header unchanged. -/
theorem decode_encode (h : FrameHeader) (hwf : h.Wf) (hv : h.version = PROTOCOL_VERSION) :
    FrameHeader.decode h.encode = .ok h := by
  obtain ⟨h1, h2, h3, h4, h5, h6⟩ := hwf
  have htag : h.frame_type.tag < 2 ^ 8 := lt_trans (FrameType.tag_lt_four _) (by norm_num)
  have fields := headerBytes_fields h.version h.frame_type.tag h.sequence h.timestamp_us
    h.width h.height h.payload_size [] h1 htag h2 h3 h4 h5 h6
  rw [List.append_nil] at fields
  obtain ⟨f1, f2, f3, f4, f5, f6, f7, -⟩ := fields
  have hlen : ¬ (h.encode.length < HEADER_SIZE) := by
    rw [length_encode]
    simp [HEADER_SIZE]
  unfold FrameHeader.decode
  rw [if_neg hlen]
  simp only [FrameHeader.encode] at f1 f2 f3 f4 f5 f6 f7 ⊢
  rw [f1, if_neg (by rw [hv]; simp), f2, FrameType.tryFrom_tag, f3, f4, f5, f6, f7, hv]
  rw [show PROTOCOL_VERSION = h.version from hv.symm]

/-- A 26-byte buffer whose version byte is not 1 is rejected with a protocol error. -/
theorem decode_bad_version (buf : List Nat) (hlen : buf.length = 26)
    (hv : buf.getD 0 0 ≠ 1) : ∃ m, FrameHeader.decode buf = .error (.protocol m) := by
  have hv' : readField buf 0 1 ≠ PROTOCOL_VERSION := by
    rw [readField_one buf 0 (by omega)]
    exact hv
  unfold FrameHeader.decode
  rw [if_neg (by rw [hlen]; simp [HEADER_SIZE]), if_pos hv']
  exact ⟨_, rfl⟩

/-- A 26-byte buffer whose frame-type byte is outside {0,1,2,3} is rejected with a
protocol error (whatever its version byte). -/
theorem decode_bad_frame_type (buf : List Nat) (hlen : buf.length = 26)
    (hft : 4 ≤ buf.getD 1 0) : ∃ m, FrameHeader.decode buf = .error (.protocol m) := by
  unfold FrameHeader.decode
  rw [if_neg (by rw [hlen]; simp [HEADER_SIZE])]
  by_cases hv : readField buf 0 1 ≠ PROTOCOL_VERSION
  · rw [if_pos hv]
    exact ⟨_, rfl⟩
  · rw [if_neg hv]
    have hft' : readField buf 1 1 = buf.getD 1 0 := readField_one buf 1 (by omega)
    rw [FrameType.tryFrom, hft', FrameType.ofTag_eq_none _ hft]
    exact ⟨_, rfl⟩

/-! ### Complete frames (`Frame` in `src/shared/src/protocol.rs`) -/

/-- Structure `Frame` of `src/shared/src/protocol.rs`: header plus payload. -/
structure Frame where
  header : FrameHeader
  payload : List Nat
deriving DecidableEq

/-- Operation `Frame::encode`: the header's 26 bytes followed by the payload bytes. -/
def Frame.encode (f : Frame) : List Nat :=
  f.header.encode ++ f.payload

/-- A frame as a well-formed sender emits it on the wire: in-range fields,
version 1, the header's `payload_size` equal to the actual payload length, and a
payload no larger than the receiver's 16 MiB ceiling. -/
def Frame.WireOk (f : Frame) : Prop :=
  f.header.Wf ∧ f.header.version = 1 ∧ f.payload.length = f.header.payload_size ∧
    f.header.payload_size ≤ 16 * 1024 * 1024

instance (f : Frame) : Decidable f.WireOk := by
  unfold Frame.WireOk
  infer_instance

theorem length_frame_encode (f : Frame) : f.encode.length = 26 + f.payload.length := by
  simp [Frame.encode, length_encode]

/-! ### Receiver-side frame record and byte-stream reassembler (`src/win/src/main.rs`) -/

/-- Constant `FRAME_HEADER_SIZE` in `src/win/src/main.rs`. -/
def FRAME_HEADER_SIZE : Nat := 26

/-- Constant `MAX_FRAME_PAYLOAD_SIZE` in `src/win/src/main.rs` (16 MiB). -/
def MAX_FRAME_PAYLOAD_SIZE : Nat := 16 * 1024 * 1024

/-- Structure `FrameData` of `src/win/src/main.rs`: what the acceptors put on the frame
channel for the presenter. -/
structure FrameData where
  width : Nat
  height : Nat
  rgba_data : List Nat
  sequence : Nat
  frame_type : FrameType
deriving DecidableEq

/-- The `FrameData` the receiver builds for a given wire frame. -/
def Frame.toFrameData (f : Frame) : FrameData :=
  { width := f.header.width, height := f.header.height, rgba_data := f.payload,
    sequence := f.header.sequence, frame_type := f.header.frame_type }

/-- The frame-extraction logic of `handle_frame_byte_stream` (`src/win/src/main.rs`,
lines 621-721) applied to the entire byte sequence delivered by the stream; the
chunked delivery loop is `runStream` below, which reduces to this function.

Per loop iteration the code: returns cleanly at EOF before 26 buffered bytes;
peeks the header and bails out on `version ≠ 1` or `payload_size >
MAX_FRAME_PAYLOAD_SIZE`; returns cleanly at EOF before `26 + payload_size`
buffered bytes; then consumes the frame's bytes, re-reads the header fields from
them, skips the frame (`continue`) when the frame-type tag is unknown or when
fewer than `payload_size` bytes follow the consumed header (impossible, kept for
faithfulness), and otherwise emits the frame. Emission uses the re-read fields
`*2`, exactly as the code does; the peeked and re-read values coincide because
both read the same 26 bytes. -/
def parseFrames (s : List Nat) : Except String (List FrameData) :=
  if h26 : s.length < FRAME_HEADER_SIZE then .ok []
  else
    let version := readField s 0 1
    let payload_size := readField s 22 4
    if version ≠ 1 then .error ("Unsupported protocol version: " ++ toString version)
    else if payload_size > MAX_FRAME_PAYLOAD_SIZE then
      .error ("Payload too large: " ++ toString payload_size ++ " bytes")
    else if hfull : s.length < FRAME_HEADER_SIZE + payload_size then .ok []
    else
      let frame_bytes := s.take (FRAME_HEADER_SIZE + payload_size)
      let frame_type_raw2 := readField frame_bytes 1 1
      let sequence2 := readField frame_bytes 2 8
      let width2 := readField frame_bytes 18 2
      let height2 := readField frame_bytes 20 2
      let payload_size2 := readField frame_bytes 22 4
      let rest := s.drop (FRAME_HEADER_SIZE + payload_size)
      match FrameType.ofTag frame_type_raw2 with
      | none => parseFrames rest
      | some frame_type =>
        if frame_bytes.length - FRAME_HEADER_SIZE < payload_size2 then parseFrames rest
        else
          (parseFrames rest).map
            (fun fs =>
              { width := width2, height := height2,
                rgba_data := (frame_bytes.drop FRAME_HEADER_SIZE).take payload_size2,
                sequence := sequence2, frame_type := frame_type } :: fs)
termination_by s.length
decreasing_by
  all_goals simp only [List.length_drop, FRAME_HEADER_SIZE] at h26 ⊢
  all_goals omega

theorem parseFrames_nil : parseFrames [] = .ok [] := by
  rw [parseFrames]
  rfl

theorem parseFrames_short (s : List Nat) (h : s.length < 26) : parseFrames s = .ok [] := by
  rw [parseFrames]
  rw [dif_pos (by simpa [FRAME_HEADER_SIZE] using h)]

theorem readField_take (l : List Nat) (n off len : Nat) (h : off + len ≤ n) :
    readField (l.take n) off len = readField l off len := by
  unfold readField
  rw [List.drop_take, List.take_take]
  have hmin : min len (n - off) = len := by omega
  rw [hmin]

/-- Parsing a stream that starts with one well-formed encoded frame consumes that
frame, emits it, and continues with the remaining bytes. -/
theorem parse_step (f : Frame) (hwf : f.WireOk) (tail : List Nat) :
    parseFrames (f.encode ++ tail) =
      (parseFrames tail).map (fun fs => f.toFrameData :: fs) := by
  obtain ⟨⟨h1, h2, h3, h4, h5, h6⟩, hv, hps, hmax⟩ := hwf
  have htag : f.header.frame_type.tag < 2 ^ 8 :=
    lt_trans (FrameType.tag_lt_four _) (by norm_num)
  obtain ⟨s1, s2, s3, s4, s5, s6, s7, sdrop⟩ := headerBytes_fields f.header.version
    f.header.frame_type.tag f.header.sequence f.header.timestamp_us f.header.width
    f.header.height f.header.payload_size (f.payload ++ tail) h1 htag h2 h3 h4 h5 h6
  obtain ⟨e1, e2, e3, e4, e5, e6, e7, edrop⟩ := headerBytes_fields f.header.version
    f.header.frame_type.tag f.header.sequence f.header.timestamp_us f.header.width
    f.header.height f.header.payload_size f.payload h1 htag h2 h3 h4 h5 h6
  have hs : f.encode ++ tail =
      headerBytes f.header.version f.header.frame_type.tag f.header.sequence
        f.header.timestamp_us f.header.width f.header.height f.header.payload_size ++
        (f.payload ++ tail) := by
    simp [Frame.encode, FrameHeader.encode, List.append_assoc]
  have hel : f.encode.length = 26 + f.header.payload_size := by
    rw [length_frame_encode, hps]
  have hlen : (f.encode ++ tail).length = 26 + f.header.payload_size + tail.length := by
    simp [hel]
  have htake : (f.encode ++ tail).take (FRAME_HEADER_SIZE + f.header.payload_size) =
      f.encode := by
    apply List.take_left'
    rw [hel, FRAME_HEADER_SIZE]
  have hdrop : (f.encode ++ tail).drop (FRAME_HEADER_SIZE + f.header.payload_size) =
      tail := by
    apply List.drop_left'
    rw [hel, FRAME_HEADER_SIZE]
  have hpayload : (f.encode.drop FRAME_HEADER_SIZE).take f.header.payload_size =
      f.payload := by
    have : f.encode.drop FRAME_HEADER_SIZE = f.payload := by
      have := edrop
      simpa [Frame.encode, FrameHeader.encode, FRAME_HEADER_SIZE] using this
    rw [this, ← hps, List.take_length]
  rw [parseFrames]
  rw [dif_neg (by rw [hlen, FRAME_HEADER_SIZE]; omega)]
  have rs1 : readField (f.encode ++ tail) 0 1 = 1 := by
    rw [hs, s1, hv]
  have rs7 : readField (f.encode ++ tail) 22 4 = f.header.payload_size := by
    rw [hs, s7]
  have re2 : readField f.encode 1 1 = f.header.frame_type.tag := by
    simpa [Frame.encode, FrameHeader.encode] using e2
  have re3 : readField f.encode 2 8 = f.header.sequence := by
    simpa [Frame.encode, FrameHeader.encode] using e3
  have re5 : readField f.encode 18 2 = f.header.width := by
    simpa [Frame.encode, FrameHeader.encode] using e5
  have re6 : readField f.encode 20 2 = f.header.height := by
    simpa [Frame.encode, FrameHeader.encode] using e6
  have re7 : readField f.encode 22 4 = f.header.payload_size := by
    simpa [Frame.encode, FrameHeader.encode] using e7
  rw [rs1, rs7]
  rw [if_neg (by omega : ¬ (1 : Nat) ≠ 1)]
  rw [if_neg (by unfold MAX_FRAME_PAYLOAD_SIZE; omega :
    ¬ f.header.payload_size > MAX_FRAME_PAYLOAD_SIZE)]
  rw [dif_neg (by rw [hlen, FRAME_HEADER_SIZE]; omega)]
  rw [htake]
  simp only []
  rw [re2, re3, re5, re6, re7, hdrop, FrameType.ofTag_tag]
  simp only []
  rw [if_neg (by rw [hel, FRAME_HEADER_SIZE]; omega), hpayload]
  simp [Frame.toFrameData]

/-- A stream holding only a proper prefix of a well-formed encoded frame is
consumed without emitting anything and without an error (clean EOF mid-frame,
or before a complete header). -/
theorem parse_partial_frame (g : Frame) (hwf : g.WireOk) (rem : List Nat)
    (hpre : rem <+: g.encode) (hlt : rem.length < g.encode.length) :
    parseFrames rem = .ok [] := by
  obtain ⟨⟨h1, h2, h3, h4, h5, h6⟩, hv, hps, hmax⟩ := hwf
  by_cases h26 : rem.length < 26
  · exact parseFrames_short rem h26
  · have htag : g.header.frame_type.tag < 2 ^ 8 :=
      lt_trans (FrameType.tag_lt_four _) (by norm_num)
    obtain ⟨e1, -, -, -, -, -, e7, -⟩ := headerBytes_fields g.header.version
      g.header.frame_type.tag g.header.sequence g.header.timestamp_us g.header.width
      g.header.height g.header.payload_size g.payload h1 htag h2 h3 h4 h5 h6
    have hge : g.encode =
        headerBytes g.header.version g.header.frame_type.tag g.header.sequence
          g.header.timestamp_us g.header.width g.header.height g.header.payload_size ++
          g.payload := by
      simp [Frame.encode, FrameHeader.encode]
    obtain ⟨t, ht⟩ := hpre
    have r1 : readField rem 0 1 = 1 := by
      have hp := readField_front rem t 0 1 (by omega)
      rw [ht, hge, e1] at hp
      rw [← hp, hv]
    have r7 : readField rem 22 4 = g.header.payload_size := by
      have hp := readField_front rem t 22 4 (by omega)
      rw [ht, hge, e7] at hp
      exact hp.symm
    have hgl : g.encode.length = 26 + g.payload.length := length_frame_encode g
    rw [parseFrames, dif_neg (by rw [FRAME_HEADER_SIZE]; omega), r1, r7]
    rw [if_neg (by omega : ¬ (1 : Nat) ≠ 1)]
    rw [if_neg (by unfold MAX_FRAME_PAYLOAD_SIZE; omega :
      ¬ g.header.payload_size > MAX_FRAME_PAYLOAD_SIZE)]
    rw [dif_pos (by rw [FRAME_HEADER_SIZE]; omega)]

/-- Parsing a concatenation of well-formed encoded frames followed by bytes that
parse to nothing emits exactly those frames, in order. -/
theorem parse_concat (frames : List Frame) (rem : List Nat)
    (hwf : ∀ f ∈ frames, f.WireOk) (hrem : parseFrames rem = .ok []) :
    parseFrames ((frames.map Frame.encode).flatten ++ rem) =
      .ok (frames.map Frame.toFrameData) := by
  induction frames with
  | nil => simpa using hrem
  | cons f fs ih =>
    have hf : f.WireOk := hwf f (by simp)
    have hfs : ∀ g ∈ fs, g.WireOk := fun g hg => hwf g (by simp [hg])
    rw [List.map_cons, List.flatten_cons, List.append_assoc, parse_step f hf, ih hfs]
    rfl

/-- The refill loops of `handle_frame_byte_stream`: extend the read buffer with
delivered chunks until at least `n` bytes are buffered; `none` models the stream
ending (`read_chunk` returning `None`) before `n` bytes arrived. -/
def refill (n : Nat) : List Nat → List (List Nat) → Option (List Nat × List (List Nat))
  | buf, chunks =>
    if n ≤ buf.length then some (buf, chunks)
    else
      match chunks with
      | [] => none
      | c :: cs => refill n (buf ++ c) cs

theorem refill_flatten (n : Nat) (buf : List Nat) (chunks : List (List Nat))
    (b : List Nat) (cs : List (List Nat)) (h : refill n buf chunks = some (b, cs)) :
    b ++ cs.flatten = buf ++ chunks.flatten := by
  induction chunks generalizing buf with
  | nil =>
    rw [refill] at h
    by_cases hle : n ≤ buf.length
    · rw [if_pos hle] at h
      cases h
      rfl
    · rw [if_neg hle] at h
      cases h
  | cons c cs' ih =>
    rw [refill] at h
    by_cases hle : n ≤ buf.length
    · rw [if_pos hle] at h
      cases h
      rfl
    · rw [if_neg hle] at h
      have := ih (buf ++ c) h
      simpa [List.append_assoc] using this


theorem refill_ge (n : Nat) (buf : List Nat) (chunks : List (List Nat))
    (b : List Nat) (cs : List (List Nat)) (h : refill n buf chunks = some (b, cs)) :
    n ≤ b.length := by
  induction chunks generalizing buf with
  | nil =>
    rw [refill] at h
    by_cases hle : n ≤ buf.length
    · rw [if_pos hle] at h
      cases h
      exact hle
    · rw [if_neg hle] at h
      cases h
  | cons c cs' ih =>
    rw [refill] at h
    by_cases hle : n ≤ buf.length
    · rw [if_pos hle] at h
      cases h
      exact hle
    · rw [if_neg hle] at h
      exact ih (buf ++ c) h

theorem refill_chunks_le (n : Nat) (buf : List Nat) (chunks : List (List Nat))
    (b : List Nat) (cs : List (List Nat)) (h : refill n buf chunks = some (b, cs)) :
    cs.length ≤ chunks.length := by
  induction chunks generalizing buf with
  | nil =>
    rw [refill] at h
    by_cases hle : n ≤ buf.length
    · rw [if_pos hle] at h
      cases h
      exact le_refl _
    · rw [if_neg hle] at h
      cases h
  | cons c cs' ih =>
    rw [refill] at h
    by_cases hle : n ≤ buf.length
    · rw [if_pos hle] at h
      cases h
      exact le_refl _
    · rw [if_neg hle] at h
      exact le_trans (ih (buf ++ c) h) (by simp)

theorem refill_none (n : Nat) (buf : List Nat) (chunks : List (List Nat))
    (h : refill n buf chunks = none) : (buf ++ chunks.flatten).length < n := by
  induction chunks generalizing buf with
  | nil =>
    rw [refill] at h
    by_cases hle : n ≤ buf.length
    · rw [if_pos hle] at h
      cases h
    · rw [if_neg hle] at h
      simpa using Nat.lt_of_not_le hle
  | cons c cs' ih =>
    rw [refill] at h
    by_cases hle : n ≤ buf.length
    · rw [if_pos hle] at h
      cases h
    · rw [if_neg hle] at h
      simpa [List.append_assoc] using ih (buf ++ c) h

/-- The frame-parsing loop of `handle_frame_byte_stream` (`src/win/src/main.rs`,
lines 621-721) over chunked delivery: the read buffer `buf` grows by whole
delivered chunks (`refill`, modelling the two `read_chunk` loops), and each
iteration peeks the header, bails out on a bad version or oversized payload,
returns cleanly if the stream ends before a full header or mid-frame, and
otherwise consumes the frame exactly as `parseFrames` does. -/
def runStream (buf : List Nat) (chunks : List (List Nat)) :
    Except String (List FrameData) :=
  match h1 : refill FRAME_HEADER_SIZE buf chunks with
  | none => .ok []
  | some (buf1, cs1) =>
    let version := readField buf1 0 1
    let payload_size := readField buf1 22 4
    if version ≠ 1 then .error ("Unsupported protocol version: " ++ toString version)
    else if payload_size > MAX_FRAME_PAYLOAD_SIZE then
      .error ("Payload too large: " ++ toString payload_size ++ " bytes")
    else
      match h2 : refill (FRAME_HEADER_SIZE + payload_size) buf1 cs1 with
      | none => .ok []
      | some (buf2, cs2) =>
        let frame_bytes := buf2.take (FRAME_HEADER_SIZE + payload_size)
        let frame_type_raw2 := readField frame_bytes 1 1
        let sequence2 := readField frame_bytes 2 8
        let width2 := readField frame_bytes 18 2
        let height2 := readField frame_bytes 20 2
        let payload_size2 := readField frame_bytes 22 4
        let rest := buf2.drop (FRAME_HEADER_SIZE + payload_size)
        match FrameType.ofTag frame_type_raw2 with
        | none => runStream rest cs2
        | some frame_type =>
          if frame_bytes.length - FRAME_HEADER_SIZE < payload_size2 then
            runStream rest cs2
          else
            (runStream rest cs2).map
              (fun fs =>
                { width := width2, height := height2,
                  rgba_data := (frame_bytes.drop FRAME_HEADER_SIZE).take payload_size2,
                  sequence := sequence2, frame_type := frame_type } :: fs)
termination_by (buf ++ chunks.flatten).length + chunks.length
decreasing_by
  all_goals
    have j1 := refill_flatten _ _ _ _ _ h1
    have j2 := refill_flatten _ _ _ _ _ h2
    have g2 := refill_ge _ _ _ _ _ h2
    have l1 := refill_chunks_le _ _ _ _ _ h1
    have l2 := refill_chunks_le _ _ _ _ _ h2
    have e1 : buf2.length + cs2.flatten.length = buf.length + chunks.flatten.length := by
      have := congrArg List.length (j2.trans j1)
      simpa using this
    simp only [List.length_append, List.length_drop, FRAME_HEADER_SIZE] at g2 e1 ⊢
    omega

theorem refill_extends (n : Nat) (buf : List Nat) (chunks : List (List Nat))
    (b : List Nat) (cs : List (List Nat)) (h : refill n buf chunks = some (b, cs)) :
    ∃ d, b = buf ++ d := by
  induction chunks generalizing buf with
  | nil =>
    rw [refill] at h
    by_cases hle : n ≤ buf.length
    · rw [if_pos hle] at h
      cases h
      exact ⟨[], by simp⟩
    · rw [if_neg hle] at h
      cases h
  | cons c cs' ih =>
    rw [refill] at h
    by_cases hle : n ≤ buf.length
    · rw [if_pos hle] at h
      cases h
      exact ⟨[], by simp⟩
    · rw [if_neg hle] at h
      obtain ⟨d, hd⟩ := ih (buf ++ c) h
      exact ⟨c ++ d, by simp [hd]⟩

/-- Chunking invariance: running the chunked reassembler loop is the same as
parsing the concatenation of the buffered bytes and all delivered chunks.
The parse decisions depend only on how many bytes have arrived, never on the
chunk boundaries. -/
theorem runStream_eq_parseFrames (buf : List Nat) (chunks : List (List Nat)) :
    runStream buf chunks = parseFrames (buf ++ chunks.flatten) := by
  induction buf, chunks using runStream.induct with
  | case1 buf chunks h1 =>
    rw [runStream]
    split
    · have htot := refill_none _ _ _ h1
      rw [parseFrames_short _ (by simpa [FRAME_HEADER_SIZE] using htot)]
    · rename_i heq
      rw [h1] at heq
      cases heq
  | case2 buf chunks buf1 cs1 h1 version hv =>
    have jf := refill_flatten _ _ _ _ _ h1
    have jg := refill_ge _ _ _ _ _ h1
    rw [FRAME_HEADER_SIZE] at jg
    rw [runStream]
    split
    · rename_i heq
      rw [h1] at heq
      cases heq
    · rename_i b1 c1 heq
      rw [h1] at heq
      injection heq with hpair
      injection hpair with hb hc
      subst hb
      subst hc
      simp only []
      rw [if_pos hv]
      rw [← jf, parseFrames, dif_neg (by rw [FRAME_HEADER_SIZE]; simp; omega)]
      rw [readField_front _ _ 0 1 (by omega)]
      rw [if_pos hv]
  | case3 buf chunks buf1 cs1 h1 version payload_size hv hps =>
    have jf := refill_flatten _ _ _ _ _ h1
    have jg := refill_ge _ _ _ _ _ h1
    rw [FRAME_HEADER_SIZE] at jg
    rw [runStream]
    split
    · rename_i heq
      rw [h1] at heq
      cases heq
    · rename_i b1 c1 heq
      rw [h1] at heq
      injection heq with hpair
      injection hpair with hb hc
      subst hb
      subst hc
      simp only []
      rw [if_neg hv, if_pos hps]
      rw [← jf, parseFrames, dif_neg (by rw [FRAME_HEADER_SIZE]; simp; omega)]
      rw [readField_front _ _ 0 1 (by omega), readField_front _ _ 22 4 (by omega)]
      rw [if_neg hv, if_pos hps]
  | case4 buf chunks buf1 cs1 h1 version payload_size hv hps h2 =>
    have jf := refill_flatten _ _ _ _ _ h1
    have jg := refill_ge _ _ _ _ _ h1
    rw [FRAME_HEADER_SIZE] at jg
    have htot := refill_none _ _ _ h2
    rw [runStream]
    split
    · rename_i heq
      rw [h1] at heq
      cases heq
    · rename_i b1 c1 heq
      rw [h1] at heq
      injection heq with hpair
      injection hpair with hb hc
      subst hb
      subst hc
      simp only []
      rw [if_neg hv, if_neg hps]
      split
      · rw [← jf, parseFrames, dif_neg (by rw [FRAME_HEADER_SIZE]; simp; omega)]
        rw [readField_front _ _ 0 1 (by omega), readField_front _ _ 22 4 (by omega)]
        rw [if_neg hv, if_neg hps]
        rw [dif_pos (by
          simp only [FRAME_HEADER_SIZE] at htot ⊢
          simpa using htot)]
      · rename_i b2 c2 heq2
        rw [h2] at heq2
        cases heq2
  | case5 buf chunks buf1 cs1 h1 version payload_size hv hps buf2 cs2 h2 frame_bytes
      frame_type_raw2 rest hft ih =>
    have jf := refill_flatten _ _ _ _ _ h1
    have jg := refill_ge _ _ _ _ _ h1
    rw [FRAME_HEADER_SIZE] at jg
    have j2 := refill_flatten _ _ _ _ _ h2
    have g2 := refill_ge _ _ _ _ _ h2
    rw [FRAME_HEADER_SIZE] at g2
    obtain ⟨d, hd⟩ := refill_extends _ _ _ _ _ h2
    rw [runStream]
    split
    · rename_i heq
      rw [h1] at heq
      cases heq
    · rename_i b1 c1 heq
      rw [h1] at heq
      injection heq with hpair
      injection hpair with hb hc
      subst hb
      subst hc
      simp only []
      rw [if_neg hv, if_neg hps]
      split
      · rename_i heq2
        rw [h2] at heq2
        cases heq2
      · rename_i b2 c2 heq2
        rw [h2] at heq2
        injection heq2 with hpair2
        injection hpair2 with hb2 hc2
        subst hb2
        subst hc2
        rw [hft]
        rw [← jf, ← j2, parseFrames,
          dif_neg (by rw [FRAME_HEADER_SIZE]; simp; omega)]
        rw [readField_front _ _ 0 1 (by omega), readField_front _ _ 22 4 (by omega)]
        have rv : readField buf2 0 1 = readField buf1 0 1 := by
          rw [hd, readField_front _ _ 0 1 (by omega)]
        have rp : readField buf2 22 4 = readField buf1 22 4 := by
          rw [hd, readField_front _ _ 22 4 (by omega)]
        rw [rv, rp, if_neg hv, if_neg hps]
        rw [dif_neg (by rw [FRAME_HEADER_SIZE]; simp; omega)]
        rw [List.take_append_of_le_length (by rw [FRAME_HEADER_SIZE]; omega),
          List.drop_append_of_le_length (by rw [FRAME_HEADER_SIZE]; omega)]
        simp only []
        rw [hft]
        exact ih
  | case6 buf chunks buf1 cs1 h1 version payload_size hv hps buf2 cs2 h2 frame_bytes
      frame_type_raw2 payload_size2 rest frame_type hft hmis ih =>
    have jf := refill_flatten _ _ _ _ _ h1
    have jg := refill_ge _ _ _ _ _ h1
    rw [FRAME_HEADER_SIZE] at jg
    have j2 := refill_flatten _ _ _ _ _ h2
    have g2 := refill_ge _ _ _ _ _ h2
    rw [FRAME_HEADER_SIZE] at g2
    obtain ⟨d, hd⟩ := refill_extends _ _ _ _ _ h2
    rw [runStream]
    split
    · rename_i heq
      rw [h1] at heq
      cases heq
    · rename_i b1 c1 heq
      rw [h1] at heq
      injection heq with hpair
      injection hpair with hb hc
      subst hb
      subst hc
      simp only []
      rw [if_neg hv, if_neg hps]
      split
      · rename_i heq2
        rw [h2] at heq2
        cases heq2
      · rename_i b2 c2 heq2
        rw [h2] at heq2
        injection heq2 with hpair2
        injection hpair2 with hb2 hc2
        subst hb2
        subst hc2
        rw [hft]
        simp only []
        rw [if_pos hmis]
        rw [← jf, ← j2, parseFrames,
          dif_neg (by rw [FRAME_HEADER_SIZE]; simp; omega)]
        rw [readField_front _ _ 0 1 (by omega), readField_front _ _ 22 4 (by omega)]
        have rv : readField buf2 0 1 = readField buf1 0 1 := by
          rw [hd, readField_front _ _ 0 1 (by omega)]
        have rp : readField buf2 22 4 = readField buf1 22 4 := by
          rw [hd, readField_front _ _ 22 4 (by omega)]
        rw [rv, rp, if_neg hv, if_neg hps]
        rw [dif_neg (by rw [FRAME_HEADER_SIZE]; simp; omega)]
        rw [List.take_append_of_le_length (by rw [FRAME_HEADER_SIZE]; omega),
          List.drop_append_of_le_length (by rw [FRAME_HEADER_SIZE]; omega)]
        simp only []
        rw [hft]
        simp only []
        rw [if_pos hmis]
        exact ih
  | case7 buf chunks buf1 cs1 h1 version payload_size hv hps buf2 cs2 h2 frame_bytes
      frame_type_raw2 payload_size2 rest frame_type hft hmis ih =>
    have jf := refill_flatten _ _ _ _ _ h1
    have jg := refill_ge _ _ _ _ _ h1
    rw [FRAME_HEADER_SIZE] at jg
    have j2 := refill_flatten _ _ _ _ _ h2
    have g2 := refill_ge _ _ _ _ _ h2
    rw [FRAME_HEADER_SIZE] at g2
    obtain ⟨d, hd⟩ := refill_extends _ _ _ _ _ h2
    rw [runStream]
    split
    · rename_i heq
      rw [h1] at heq
      cases heq
    · rename_i b1 c1 heq
      rw [h1] at heq
      injection heq with hpair
      injection hpair with hb hc
      subst hb
      subst hc
      simp only []
      rw [if_neg hv, if_neg hps]
      split
      · rename_i heq2
        rw [h2] at heq2
        cases heq2
      · rename_i b2 c2 heq2
        rw [h2] at heq2
        injection heq2 with hpair2
        injection hpair2 with hb2 hc2
        subst hb2
        subst hc2
        rw [hft]
        simp only []
        rw [if_neg hmis]
        rw [← jf, ← j2, parseFrames,
          dif_neg (by rw [FRAME_HEADER_SIZE]; simp; omega)]
        rw [readField_front _ _ 0 1 (by omega), readField_front _ _ 22 4 (by omega)]
        have rv : readField buf2 0 1 = readField buf1 0 1 := by
          rw [hd, readField_front _ _ 0 1 (by omega)]
        have rp : readField buf2 22 4 = readField buf1 22 4 := by
          rw [hd, readField_front _ _ 22 4 (by omega)]
        rw [rv, rp, if_neg hv, if_neg hps]
        rw [dif_neg (by rw [FRAME_HEADER_SIZE]; simp; omega)]
        rw [List.take_append_of_le_length (by rw [FRAME_HEADER_SIZE]; omega),
          List.drop_append_of_le_length (by rw [FRAME_HEADER_SIZE]; omega)]
        simp only []
        rw [hft]
        simp only []
        rw [if_neg hmis]
        rw [ih]

/-! ### Single-frame parser for one-shot streams and datagrams
(`handle_single_frame_datagramlike`, `src/win/src/main.rs` lines 572-619) -/

/-- Function `handle_single_frame_datagramlike`. The function reads the 26 header bytes
with `bytes::Buf` cursor reads (`get_u8`/`get_u64`/`get_u16`/`get_u32`), which
PANIC when fewer bytes remain than requested; `none` models that panic, `some`
the function's normal `Result`. The version byte is read into `_version` and
never checked. The uni-stream caller guards `data.len() < FRAME_HEADER_SIZE`
before calling; the datagram caller does not. -/
def handle_single_frame_datagramlike (data : List Nat) :
    Option (Except String FrameData) :=
  if data.length < 26 then
    none
  else
    let frame_type_raw := readField data 1 1
    let sequence := readField data 2 8
    let width := readField data 18 2
    let height := readField data 20 2
    let payload_size := readField data 22 4
    if payload_size > MAX_FRAME_PAYLOAD_SIZE then
      some (.error ("Payload too large: " ++ toString payload_size ++ " bytes"))
    else
      match FrameType.ofTag frame_type_raw with
      | none => some (.error ("Unknown frame type: " ++ toString frame_type_raw))
      | some frame_type =>
        if data.length - 26 < payload_size then
          some (.error ("Payload size mismatch: expected " ++ toString payload_size ++
            ", got " ++ toString (data.length - 26)))
        else
          some (.ok { width := width, height := height,
                      rgba_data := (data.drop 26).take payload_size,
                      sequence := sequence, frame_type := frame_type })

/-! ### Presenter loop state (`src/win/src/main.rs` lines 206-227 and 320-414) -/

/-- The presenter-owned display state: current dimensions and the `Vec<u32>`
framebuffer (entries are packed `0x00RRGGBB` values, modelled as `Nat`). -/
structure PState where
  width : Nat
  height : Nat
  buffer : List Nat
deriving DecidableEq

/-- Semantics of `Vec::resize(n, v)`: truncate to `n` elements or extend with copies of `v`. -/
def listResize (l : List Nat) (n : Nat) (v : Nat) : List Nat :=
  if n ≤ l.length then l.take n else l ++ List.replicate (n - l.length) v

theorem length_listResize (l : List Nat) (n v : Nat) : (listResize l n v).length = n := by
  unfold listResize
  by_cases h : n ≤ l.length
  · rw [if_pos h]
    simp [h]
  · rw [if_neg h]
    simp
    omega

/-- Function `resize_window_and_buffers` (`src/win/src/main.rs` lines 206-227): skip when a
requested dimension is zero; resize the buffer to `new_width * new_height` and
store the new dimensions when they differ from the current ones. -/
def resize_window_and_buffers (s : PState) (new_width new_height : Nat) : PState :=
  if new_width = 0 ∨ new_height = 0 then s
  else if new_width ≠ s.width ∨ new_height ≠ s.height then
    { width := new_width, height := new_height,
      buffer := listResize s.buffer (new_width * new_height) 0 }
  else s

/-- The packed pixel written for pixel index `i` of a Raw frame:
`(r << 16) | (g << 8) | b` from payload bytes `4*i`, `4*i+1`, `4*i+2`
(the alpha byte `4*i+3` is ignored). The bitwise ORs equal this sum because
each byte is below 256. -/
def rawPixel (data : List Nat) (i : Nat) : Nat :=
  data.getD (4 * i) 0 * 65536 + data.getD (4 * i + 1) 0 * 256 + data.getD (4 * i + 2) 0

/-- The `for i in 0..max_pixels { buffer[i] = ... }` loop of the Raw arm, walking
the buffer with its index. -/
def renderRawGo (data : List Nat) (maxPixels : Nat) : Nat → List Nat → List Nat
  | _, [] => []
  | i, px :: rest =>
    (if i < maxPixels then rawPixel data i else px) :: renderRawGo data maxPixels (i + 1) rest

/-- The `FrameType::Raw` arm of the presenter loop (`src/win/src/main.rs` lines
395-405): overwrite the first `min(buffer.len(), rgba_data.len() / 4)` pixels of
the framebuffer with packed values read from consecutive 4-byte groups. -/
def renderRawInto (buffer data : List Nat) : List Nat :=
  renderRawGo data (min buffer.length (data.length / 4)) 0 buffer

/-- One iteration of the presenter drain loop for one received frame
(`src/win/src/main.rs` lines 322-414): first `resize_window_and_buffers` with the
header dimensions, then dispatch on the frame type. The `H264` arm drives the
external OpenH264 decoder; it is abstracted as the parameter `h264`. The `_`
(Control / Stats) arm only logs. -/
def presenterStep (h264 : PState → List Nat → PState) (s : PState) (f : FrameData) :
    PState :=
  let s1 := resize_window_and_buffers s f.width f.height
  match f.frame_type with
  | .H264Frame => h264 s1 f.rgba_data
  | .RawFrame => { s1 with buffer := renderRawInto s1.buffer f.rgba_data }
  | .Control => s1
  | .Stats => s1

/-! ### Frame channel (`mpsc::channel::<FrameData>(60)`, `src/win/src/main.rs` line 258) -/

/-- Capacity of the frame channel created in `main`. -/
def FRAME_CHANNEL_CAPACITY : Nat := 60

/-- Outcome of a producer-side enqueue on the bounded frame channel. -/
inductive SendOutcome where
  | delivered (queue : List FrameData)
  | suspendedUntilSpace
deriving DecidableEq

/-- The producer enqueue used by all three acceptors (`tx.send(frame).await`,
e.g. `src/win/src/main.rs` lines 608-616 and 707-719) on the bounded tokio mpsc
channel of capacity 60: if a slot is free the frame is appended to the queue;
if the queue is full the `send` future suspends until the consumer frees a slot.
A `send` on a full channel never discards the frame, and the receiver maintains
no drop counter. -/
def channelSend (queue : List FrameData) (f : FrameData) : SendOutcome :=
  if queue.length < FRAME_CHANNEL_CAPACITY then .delivered (queue ++ [f])
  else .suspendedUntilSpace

/-! ### Color conversion (`yuv_to_rgb_bt709_limited`, `src/win/src/main.rs` lines 30-65) -/

/-- Rust's arithmetic right shift by 10 on `i32` (floor division by 1024). -/
def asr10 (x : Int) : Int :=
  Int.fdiv x 1024

/-- Semantics of `i32::clamp(0, 255)`. -/
def clamp255 (x : Int) : Int :=
  max 0 (min x 255)

/-- Function `yuv_to_rgb_bt709_limited` (`src/win/src/main.rs` lines 30-65): fixed-point
BT.709 limited-range to full-range conversion. Inputs are the `u8` plane samples
(as `Nat`), the result is the `(r, g, b)` triple of clamped components. -/
def yuv_to_rgb_bt709_limited (y u v : Nat) : Int × Int × Int :=
  let y_i : Int := (y : Int) - 16
  let u_i : Int := (u : Int) - 128
  let v_i : Int := (v : Int) - 128
  let y_scaled := asr10 (y_i * 1192)
  let r := y_scaled + asr10 (1836 * v_i)
  let g := y_scaled - asr10 (218 * u_i + 545 * v_i)
  let b := y_scaled + asr10 (2160 * u_i)
  (clamp255 r, clamp255 g, clamp255 b)

theorem length_renderRawGo (data : List Nat) (m : Nat) :
    ∀ (i : Nat) (l : List Nat), (renderRawGo data m i l).length = l.length := by
  intro i l
  induction l generalizing i with
  | nil => rfl
  | cons px rest ih => simp [renderRawGo, ih]

theorem getD_renderRawGo (data : List Nat) (m : Nat) :
    ∀ (i j : Nat) (l : List Nat), j < l.length →
      (renderRawGo data m i l).getD j 0 =
        if i + j < m then rawPixel data (i + j) else l.getD j 0 := by
  intro i j l
  induction l generalizing i j with
  | nil => intro h; simp at h
  | cons px rest ih =>
    intro h
    cases j with
    | zero => simp [renderRawGo]
    | succ j' =>
      rw [renderRawGo]
      rw [List.getD_cons_succ, List.getD_cons_succ]
      rw [ih (i + 1) j' (by simpa using h)]
      have harith : i + 1 + j' = i + (j' + 1) := by omega
      rw [harith]

theorem length_renderRawInto (buffer data : List Nat) :
    (renderRawInto buffer data).length = buffer.length :=
  length_renderRawGo data _ 0 buffer

theorem getD_renderRawInto (buffer data : List Nat) (i : Nat) (h : i < buffer.length) :
    (renderRawInto buffer data).getD i 0 =
      if i < min buffer.length (data.length / 4) then rawPixel data i
      else buffer.getD i 0 := by
  have := getD_renderRawGo data (min buffer.length (data.length / 4)) 0 i buffer h
  simpa [renderRawInto] using this

/-- The S1 scenario frame: a 2 x 2 Raw frame whose 16 payload bytes are the pixels
red, green, blue, white (each with alpha 255). -/
def s1Frame : FrameData :=
  { width := 2, height := 2,
    rgba_data := [255, 0, 0, 255, 0, 255, 0, 255, 0, 0, 255, 255, 255, 255, 255, 255],
    sequence := 1, frame_type := .RawFrame }

theorem renderRawInto_s1 :
    ∀ (buf : List Nat), buf.length = 4 →
      renderRawInto buf [255, 0, 0, 255, 0, 255, 0, 255, 0, 0, 255, 255, 255, 255, 255, 255] =
        [16711680, 65280, 255, 16777215]
  | [_, _, _, _], _ => rfl

/-- Processing the S1 frame from any presenter state satisfying the framebuffer
invariant yields exactly the expected four packed pixels. -/
theorem presenterStep_s1 (h264 : PState → List Nat → PState) (s : PState)
    (hinv : s.buffer.length = s.width * s.height) :
    presenterStep h264 s s1Frame =
      { width := 2, height := 2, buffer := [16711680, 65280, 255, 16777215] } := by
  obtain ⟨w, h, b⟩ := s
  simp only [] at hinv
  unfold presenterStep s1Frame
  simp only []
  unfold resize_window_and_buffers
  simp only []
  rw [if_neg (by simp)]
  by_cases hch : (2 : Nat) ≠ w ∨ (2 : Nat) ≠ h
  · rw [if_pos hch]
    simp only []
    rw [renderRawInto_s1 _ (by rw [length_listResize])]
  · rw [if_neg hch]
    push_neg at hch
    obtain ⟨hw, hh⟩ := hch
    have hl : b.length = 4 := by rw [hinv, ← hw, ← hh]
    simp only []
    rw [renderRawInto_s1 _ hl, ← hw, ← hh]

/-- A version-1, size-ok frame whose frame-type tag is outside {0,1,2,3} is
consumed and skipped by the byte-stream reassembler: no error, nothing emitted,
parsing resumes after its bytes. -/
theorem parse_skip (t sq ts w h ps : Nat) (payload tail : List Nat)
    (htag4 : 4 ≤ t) (htag : t < 2 ^ 8) (hsq : sq < 2 ^ 64) (hts : ts < 2 ^ 64)
    (hw : w < 2 ^ 16) (hh : h < 2 ^ 16) (hlen : payload.length = ps)
    (hmax : ps ≤ 16 * 1024 * 1024) :
    parseFrames (headerBytes 1 t sq ts w h ps ++ (payload ++ tail)) = parseFrames tail := by
  have hps32 : ps < 2 ^ 32 := by omega
  obtain ⟨s1, s2, -, -, -, -, s7, -⟩ := headerBytes_fields 1 t sq ts w h ps
    (payload ++ tail) (by norm_num) htag hsq hts hw hh hps32
  obtain ⟨-, e2, -, -, -, -, -, edrop⟩ := headerBytes_fields 1 t sq ts w h ps
    payload (by norm_num) htag hsq hts hw hh hps32
  have hhl : (headerBytes 1 t sq ts w h ps).length = 26 := length_headerBytes ..
  have hlen' : (headerBytes 1 t sq ts w h ps ++ (payload ++ tail)).length =
      26 + ps + tail.length := by
    simp [hhl, hlen]
    omega
  have htake : (headerBytes 1 t sq ts w h ps ++ (payload ++ tail)).take
      (FRAME_HEADER_SIZE + ps) = headerBytes 1 t sq ts w h ps ++ payload := by
    rw [← List.append_assoc]
    apply List.take_left'
    simp [hhl, hlen, FRAME_HEADER_SIZE]
  have hdrop : (headerBytes 1 t sq ts w h ps ++ (payload ++ tail)).drop
      (FRAME_HEADER_SIZE + ps) = tail := by
    rw [← List.append_assoc]
    apply List.drop_left'
    simp [hhl, hlen, FRAME_HEADER_SIZE]
  rw [parseFrames]
  rw [dif_neg (by rw [hlen', FRAME_HEADER_SIZE]; omega)]
  rw [s1, s7]
  rw [if_neg (by omega : ¬ (1 : Nat) ≠ 1)]
  rw [if_neg (by unfold MAX_FRAME_PAYLOAD_SIZE; omega : ¬ ps > MAX_FRAME_PAYLOAD_SIZE)]
  rw [dif_neg (by rw [hlen', FRAME_HEADER_SIZE]; omega)]
  rw [htake]
  simp only []
  rw [e2, FrameType.ofTag_eq_none t htag4, hdrop]

/-- Datagrams and one-shot streams shorter than the 26-byte header make the
single-frame parser panic (a `bytes::Buf` cursor read past the end). -/
theorem dgram_short_panics (data : List Nat) (h : data.length < 26) :
    handle_single_frame_datagramlike data = none := by
  unfold handle_single_frame_datagramlike
  rw [if_pos h]

/-- The single-frame parser rejects an unknown frame-type tag (when the declared
payload size is within the ceiling, which is checked first). -/
theorem dgram_bad_frame_type (data : List Nat) (h26 : 26 ≤ data.length)
    (hps : readField data 22 4 ≤ MAX_FRAME_PAYLOAD_SIZE) (hft : 4 ≤ readField data 1 1) :
    ∃ m, handle_single_frame_datagramlike data = some (.error m) := by
  unfold handle_single_frame_datagramlike
  rw [if_neg (by omega)]
  simp only []
  rw [if_neg (by omega), FrameType.ofTag_eq_none _ hft]
  exact ⟨_, rfl⟩

/-- The single-frame parser never examines the version byte: any input of at
least 26 bytes with a known frame-type tag, an in-ceiling payload size and
enough payload bytes is accepted, whatever its first byte. -/
theorem dgram_ignores_version (data : List Nat) (h26 : 26 ≤ data.length)
    (hps : readField data 22 4 ≤ MAX_FRAME_PAYLOAD_SIZE)
    (hft : readField data 1 1 < 4)
    (henough : readField data 22 4 ≤ data.length - 26) :
    ∃ fd, handle_single_frame_datagramlike data = some (.ok fd) := by
  unfold handle_single_frame_datagramlike
  rw [if_neg (by omega)]
  simp only []
  rw [if_neg (by omega)]
  have : ∃ ft, FrameType.ofTag (readField data 1 1) = some ft := by
    interval_cases h : readField data 1 1
    · exact ⟨.RawFrame, rfl⟩
    · exact ⟨.H264Frame, rfl⟩
    · exact ⟨.Control, rfl⟩
    · exact ⟨.Stats, rfl⟩
  obtain ⟨ft, hft'⟩ := this
  rw [hft']
  simp only []
  rw [if_neg (by omega)]
  exact ⟨_, rfl⟩

/-- A stream whose first 26 delivered bytes carry a version byte other than 1 is
aborted by the reassembler with a fatal error. -/
theorem stream_rejects_bad_version (chunks : List (List Nat))
    (h26 : 26 ≤ chunks.flatten.length) (hv : readField chunks.flatten 0 1 ≠ 1) :
    ∃ e, runStream [] chunks = .error e := by
  rw [runStream_eq_parseFrames, List.nil_append, parseFrames]
  rw [dif_neg (by rw [FRAME_HEADER_SIZE]; omega)]
  rw [if_pos hv]
  exact ⟨_, rfl⟩

/-- A stream whose candidate header declares a payload above the 16 MiB ceiling
is aborted by the reassembler with a fatal error. -/
theorem stream_rejects_oversize (chunks : List (List Nat))
    (h26 : 26 ≤ chunks.flatten.length) (hv : readField chunks.flatten 0 1 = 1)
    (hover : MAX_FRAME_PAYLOAD_SIZE < readField chunks.flatten 22 4) :
    ∃ e, runStream [] chunks = .error e := by
  rw [runStream_eq_parseFrames, List.nil_append, parseFrames]
  rw [dif_neg (by rw [FRAME_HEADER_SIZE]; omega)]
  rw [if_neg (by simp [hv]), if_pos hover]
  exact ⟨_, rfl⟩

/-- A complete delivered frame with version 1, in-ceiling payload and a
frame-type tag outside {0,1,2,3} is consumed and skipped: no fatal error and
nothing emitted. -/
theorem stream_skips_unknown_tag (t sq ts w h : Nat) (payload : List Nat)
    (htag4 : 4 ≤ t) (htag : t < 2 ^ 8) (hsq : sq < 2 ^ 64) (hts : ts < 2 ^ 64)
    (hw : w < 2 ^ 16) (hh : h < 2 ^ 16) (hmax : payload.length ≤ 16 * 1024 * 1024) :
    runStream [] [headerBytes 1 t sq ts w h payload.length ++ payload] = .ok [] := by
  rw [runStream_eq_parseFrames]
  have hs : ([] : List Nat) ++ [headerBytes 1 t sq ts w h payload.length ++ payload].flatten =
      headerBytes 1 t sq ts w h payload.length ++ (payload ++ []) := by
    simp
  rw [hs, parse_skip t sq ts w h payload.length payload [] htag4 htag hsq hts hw hh rfl hmax,
    parseFrames_nil]

/-- A single well-formed frame (version 1, known tag, payload within the
ceiling) is accepted and emitted by the reassembler; in particular a frame whose
payload size is at most the ceiling is never rejected for size. -/
theorem stream_accepts_wireok (f : Frame) (hwf : f.WireOk) :
    runStream [] [f.encode] = .ok [f.toFrameData] := by
  rw [runStream_eq_parseFrames]
  have hs : ([] : List Nat) ++ [f.encode].flatten = ([f].map Frame.encode).flatten ++ [] := by
    simp
  rw [hs]
  have := parse_concat [f] [] (by simpa using hwf) parseFrames_nil
  simpa using this

/-! ### Claim theorems -/

/-- C1: for every valid frame header (version 1, frame-type tag in {0,1,2,3} —
every `FrameType` value — and in-range fields), `FrameHeader::decode` applied to
the 26 bytes produced by `FrameHeader::encode` returns the header unchanged; and
every 26-byte buffer whose version byte is not 1, or whose frame-type byte is
not in {0,1,2,3}, is rejected with a `Protocol` error. -/
theorem claim_c1_header_codec :
    (∀ h : FrameHeader, h.Wf → h.version = 1 →
      FrameHeader.decode h.encode = .ok h) ∧
    (∀ buf : List Nat, buf.length = 26 → (buf.getD 0 0 ≠ 1 ∨ 4 ≤ buf.getD 1 0) →
      ∃ m, FrameHeader.decode buf = .error (.protocol m)) := by
  refine ⟨fun h hwf hv => decode_encode h hwf hv, fun buf hlen hbad => ?_⟩
  rcases hbad with hv | hft
  · exact decode_bad_version buf hlen hv
  · by_cases hv : buf.getD 0 0 ≠ 1
    · exact decode_bad_version buf hlen hv
    · exact decode_bad_frame_type buf hlen hft

/-- Witness for C1 at a concrete header and a concrete bad buffer. -/
theorem claim_c1_header_codec_witness :
    FrameHeader.decode (FrameHeader.encode
      { version := 1, frame_type := .RawFrame, sequence := 42, timestamp_us := 1000000,
        width := 1920, height := 1080, payload_size := 8294400 }) =
      .ok { version := 1, frame_type := .RawFrame, sequence := 42, timestamp_us := 1000000,
            width := 1920, height := 1080, payload_size := 8294400 } ∧
    (∃ m, FrameHeader.decode (7 :: List.replicate 25 0) = .error (.protocol m)) ∧
    (∃ m, FrameHeader.decode (1 :: 255 :: List.replicate 24 0) = .error (.protocol m)) :=
  ⟨claim_c1_header_codec.1 _ (by decide) rfl,
   claim_c1_header_codec.2 _ (by decide) (by decide),
   claim_c1_header_codec.2 _ (by decide) (by decide)⟩

/-- C2: for every sequence of well-formed encoded frames concatenated into one
byte stream, and every partition of that stream into delivery chunks, the
byte-stream reassembler emits exactly those frames in order (each with its
payload of exactly `payload_size` bytes); a trailing partial frame — fewer than
26 bytes, or a proper prefix of one more well-formed encoded frame — is
discarded and the reassembler terminates cleanly without an error. -/
theorem claim_c2_reassembler (frames : List Frame) (chunks : List (List Nat))
    (rem : List Nat) (hwf : ∀ f ∈ frames, f.WireOk)
    (hstream : chunks.flatten = (frames.map Frame.encode).flatten ++ rem)
    (hrem : rem.length < 26 ∨
      ∃ g : Frame, g.WireOk ∧ rem <+: g.encode ∧ rem.length < g.encode.length) :
    runStream [] chunks = .ok (frames.map Frame.toFrameData) := by
  rw [runStream_eq_parseFrames, List.nil_append, hstream]
  apply parse_concat frames rem hwf
  rcases hrem with hshort | ⟨g, hgwf, hgpre, hglt⟩
  · exact parseFrames_short rem hshort
  · exact parse_partial_frame g hgwf rem hgpre hglt

/-- C7: refuted. A Control frame whose header carries non-zero dimensions that
differ from the current ones does change the presenter state: the pre-dispatch
resize shrinks the framebuffer and updates the dimensions. -/
theorem claim_c7_counterexample :
    presenterStep (fun s _ => s)
      { width := 2, height := 2, buffer := [10, 20, 30, 40] }
      { width := 1, height := 1, rgba_data := [], sequence := 7,
        frame_type := .Control } =
      { width := 1, height := 1, buffer := [10] } ∧
    ({ width := 1, height := 1, buffer := [10] } : PState) ≠
      { width := 2, height := 2, buffer := [10, 20, 30, 40] } := by
  constructor
  · rfl
  · decide

/-- C7 (amended): a Control or Stats frame is never written to the framebuffer —
its dispatch arm returns the state produced by the shared pre-dispatch resize
unchanged — so the state is entirely unchanged exactly when the header's
dimensions match the current ones or one of them is zero; a header with
non-zero dimensions differing from the current ones still triggers the resize. -/
theorem claim_c7_amended (h264 : PState → List Nat → PState) (s : PState)
    (f : FrameData) (hft : f.frame_type = .Control ∨ f.frame_type = .Stats) :
    presenterStep h264 s f = resize_window_and_buffers s f.width f.height ∧
    ((f.width = s.width ∧ f.height = s.height) ∨ f.width = 0 ∨ f.height = 0 →
      presenterStep h264 s f = s) := by
  have harm : presenterStep h264 s f = resize_window_and_buffers s f.width f.height := by
    unfold presenterStep
    rcases hft with hft | hft <;> rw [hft]
  refine ⟨harm, fun hsame => ?_⟩
  rw [harm]
  unfold resize_window_and_buffers
  rcases hsame with ⟨hw, hh⟩ | hz
  · by_cases h0 : f.width = 0 ∨ f.height = 0
    · rw [if_pos h0]
    · rw [if_neg h0, if_neg (by push_neg; exact ⟨hw, hh⟩)]
  · rw [if_pos hz]

/-- Witness for C7 (amended): a Stats frame whose header matches the current
2 x 2 dimensions leaves the state untouched. -/
theorem claim_c7_amended_witness :
    presenterStep (fun s _ => s) { width := 2, height := 2, buffer := [1, 2, 3, 4] }
      { width := 2, height := 2, rgba_data := [9], sequence := 3,
        frame_type := .Stats } =
      { width := 2, height := 2, buffer := [1, 2, 3, 4] } :=
  (claim_c7_amended (fun s _ => s) _ _ (Or.inr rfl)).2 (Or.inl ⟨rfl, rfl⟩)

/-- A throwaway frame record used to fill the channel in the C8 statements. -/
def dummyFrameData : FrameData :=
  { width := 0, height := 0, rgba_data := [], sequence := 0, frame_type := .RawFrame }

/-- C8: refuted. With the channel at its capacity of 60, the producer-side send
suspends until the consumer frees a slot; it does not drop the frame (and the
receiver maintains no drop counter to increment). -/
theorem claim_c8_counterexample :
    channelSend (List.replicate 60 dummyFrameData) dummyFrameData =
      .suspendedUntilSpace := by
  rfl

/-- C8 (amended): the frame channel has capacity 60, and a producer enqueue on a
full channel suspends until the consumer drains — no frame is dropped and no
drop counter exists; on a non-full channel the frame is appended in order. -/
theorem claim_c8_amended (queue : List FrameData) (f : FrameData) :
    FRAME_CHANNEL_CAPACITY = 60 ∧
    (60 ≤ queue.length → channelSend queue f = .suspendedUntilSpace) ∧
    (queue.length < 60 → channelSend queue f = .delivered (queue ++ [f])) := by
  refine ⟨rfl, fun hfull => ?_, fun hroom => ?_⟩
  · unfold channelSend
    rw [if_neg (by unfold FRAME_CHANNEL_CAPACITY; omega)]
  · unfold channelSend
    rw [if_pos (by unfold FRAME_CHANNEL_CAPACITY; omega)]

/-- Witness for C8 (amended) on a full and a non-full queue. -/
theorem claim_c8_amended_witness :
    channelSend (List.replicate 60 dummyFrameData) dummyFrameData =
      .suspendedUntilSpace ∧
    channelSend [] dummyFrameData = .delivered [dummyFrameData] :=
  ⟨(claim_c8_amended (List.replicate 60 dummyFrameData) dummyFrameData).2.1 (by simp),
   (claim_c8_amended [] dummyFrameData).2.2 (by simp)⟩

/-- C9: a resize request with a zero dimension is skipped (state unchanged);
a request with both dimensions non-zero leaves the stored dimensions equal to
the request and the framebuffer length equal to their product, provided the
framebuffer invariant held before; hence the invariant
`buffer.length = width * height` is preserved by every resize call. -/
theorem claim_c9_resize (s : PState) (nw nh : Nat) :
    ((nw = 0 ∨ nh = 0) → resize_window_and_buffers s nw nh = s) ∧
    (nw ≠ 0 → nh ≠ 0 → s.buffer.length = s.width * s.height →
      (resize_window_and_buffers s nw nh).width = nw ∧
      (resize_window_and_buffers s nw nh).height = nh ∧
      (resize_window_and_buffers s nw nh).buffer.length = nw * nh) ∧
    (s.buffer.length = s.width * s.height →
      (resize_window_and_buffers s nw nh).buffer.length =
        (resize_window_and_buffers s nw nh).width *
          (resize_window_and_buffers s nw nh).height) := by
  have hzero : (nw = 0 ∨ nh = 0) → resize_window_and_buffers s nw nh = s := by
    intro hz
    unfold resize_window_and_buffers
    rw [if_pos hz]
  have hpos : nw ≠ 0 → nh ≠ 0 → s.buffer.length = s.width * s.height →
      (resize_window_and_buffers s nw nh).width = nw ∧
      (resize_window_and_buffers s nw nh).height = nh ∧
      (resize_window_and_buffers s nw nh).buffer.length = nw * nh := by
    intro hw hh hinv
    unfold resize_window_and_buffers
    rw [if_neg (by push_neg; exact ⟨hw, hh⟩)]
    by_cases hch : nw ≠ s.width ∨ nh ≠ s.height
    · rw [if_pos hch]
      exact ⟨rfl, rfl, length_listResize s.buffer (nw * nh) 0⟩
    · rw [if_neg hch]
      push_neg at hch
      obtain ⟨h1, h2⟩ := hch
      exact ⟨h1.symm, h2.symm, by rw [hinv, h1, h2]⟩
  refine ⟨hzero, hpos, fun hinv => ?_⟩
  by_cases hz : nw = 0 ∨ nh = 0
  · rw [hzero hz]
    exact hinv
  · push_neg at hz
    obtain ⟨hw, hh, hl⟩ := hpos hz.1 hz.2 hinv
    rw [hw, hh, hl]

/-- Witness for C9 at a concrete state and concrete zero / non-zero requests. -/
theorem claim_c9_resize_witness :
    resize_window_and_buffers { width := 2, height := 2, buffer := [1, 2, 3, 4] } 0 5 =
      { width := 2, height := 2, buffer := [1, 2, 3, 4] } ∧
    (resize_window_and_buffers { width := 2, height := 2, buffer := [1, 2, 3, 4] } 3 1).width = 3 ∧
    (resize_window_and_buffers { width := 2, height := 2, buffer := [1, 2, 3, 4] } 3 1).height = 1 ∧
    (resize_window_and_buffers
      { width := 2, height := 2, buffer := [1, 2, 3, 4] } 3 1).buffer.length = 3 * 1 :=
  ⟨(claim_c9_resize _ 0 5).1 (Or.inl rfl),
   ((claim_c9_resize _ 3 1).2.1 (by decide) (by decide) (by decide)).1,
   ((claim_c9_resize _ 3 1).2.1 (by decide) (by decide) (by decide)).2.1,
   ((claim_c9_resize _ 3 1).2.1 (by decide) (by decide) (by decide)).2.2⟩

/-- C10: refuted by the code (code bug). The single-frame parser is reached from
the datagram acceptor without any length guard, and on an input shorter than the
26-byte header its `bytes::Buf` reads panic (modelled as `none`) instead of
returning an error: here the empty datagram. -/
theorem claim_c10_short_datagram_panics :
    handle_single_frame_datagramlike [] = none := by
  rfl

/-- The first S2 scenario frame: raw, sequence 1, one 2 x 1 row red + green. -/
def s2FrameA : Frame :=
  { header := { version := 1, frame_type := .RawFrame, sequence := 1, timestamp_us := 0,
                width := 2, height := 1, payload_size := 8 },
    payload := [255, 0, 0, 255, 0, 255, 0, 255] }

/-- The second S2 scenario frame: raw, sequence 2, one 2 x 1 row blue + white. -/
def s2FrameB : Frame :=
  { header := { version := 1, frame_type := .RawFrame, sequence := 2, timestamp_us := 0,
                width := 2, height := 1, payload_size := 8 },
    payload := [0, 0, 255, 255, 255, 255, 255, 255] }

/-- The S2 byte stream delivered one byte at a time (scenario S3). -/
def s2Chunks : List (List Nat) :=
  (s2FrameA.encode ++ s2FrameB.encode).map (fun b => [b])

/-- Witness for C2: the two S2 frames, delivered one byte at a time, are emitted
exactly and in order. -/
theorem claim_c2_reassembler_witness :
    (∀ f ∈ [s2FrameA, s2FrameB], f.WireOk) ∧
    s2Chunks.flatten = ([s2FrameA, s2FrameB].map Frame.encode).flatten ++ [] ∧
    runStream [] s2Chunks = .ok ([s2FrameA, s2FrameB].map Frame.toFrameData) :=
  ⟨by decide, by decide,
   claim_c2_reassembler [s2FrameA, s2FrameB] s2Chunks [] (by decide) (by decide)
     (Or.inl (by decide))⟩

/-- C3: refuted for the frame-type clause. A complete frame with version 1,
`payload_size = 0` and frame-type tag 4 does not abort the stream: the
reassembler skips it and ends cleanly with no error (and no emission). -/
theorem claim_c3_counterexample :
    runStream [] [headerBytes 1 4 0 0 0 0 0] = .ok [] := by
  have h := stream_skips_unknown_tag 4 0 0 0 0 ([] : List Nat)
    (by norm_num) (by norm_num) (by norm_num) (by norm_num) (by norm_num) (by norm_num)
    (by simp)
  simpa using h

/-- C3 (amended): a candidate header with version ≠ 1 or with `payload_size`
above the 16 MiB ceiling aborts the stream with a fatal protocol error before
the frame is emitted; a complete frame whose frame-type tag is outside {0,1,2,3}
is not emitted but is silently skipped rather than aborting the stream; and a
well-formed frame whose payload size is at most the ceiling is never rejected
for size. -/
theorem claim_c3_amended :
    (∀ chunks : List (List Nat), 26 ≤ chunks.flatten.length →
      readField chunks.flatten 0 1 ≠ 1 → ∃ e, runStream [] chunks = .error e) ∧
    (∀ chunks : List (List Nat), 26 ≤ chunks.flatten.length →
      readField chunks.flatten 0 1 = 1 →
      MAX_FRAME_PAYLOAD_SIZE < readField chunks.flatten 22 4 →
      ∃ e, runStream [] chunks = .error e) ∧
    (∀ (t sq ts w h : Nat) (payload : List Nat),
      4 ≤ t → t < 2 ^ 8 → sq < 2 ^ 64 → ts < 2 ^ 64 → w < 2 ^ 16 → h < 2 ^ 16 →
      payload.length ≤ 16 * 1024 * 1024 →
      runStream [] [headerBytes 1 t sq ts w h payload.length ++ payload] = .ok []) ∧
    (∀ f : Frame, f.WireOk → runStream [] [f.encode] = .ok [f.toFrameData]) :=
  ⟨stream_rejects_bad_version, stream_rejects_oversize, stream_skips_unknown_tag,
   stream_accepts_wireok⟩

/-- Witness for C3 (amended): a version-0 header aborts, an oversized
declaration aborts, a tag-4 frame is skipped, and a well-formed frame passes. -/
theorem claim_c3_amended_witness :
    (∃ e, runStream [] [List.replicate 26 0] = .error e) ∧
    (∃ e, runStream [] [headerBytes 1 0 0 0 0 0 (17 * 1024 * 1024)] = .error e) ∧
    runStream [] [headerBytes 1 4 0 0 0 0 (List.length ([] : List Nat)) ++ ([] : List Nat)] = .ok [] ∧
    runStream [] [s2FrameA.encode] = .ok [s2FrameA.toFrameData] :=
  ⟨claim_c3_amended.1 [List.replicate 26 0] (by decide) (by decide),
   claim_c3_amended.2.1 [headerBytes 1 0 0 0 0 0 (17 * 1024 * 1024)] (by decide)
     (by decide) (by decide),
   claim_c3_amended.2.2.1 4 0 0 0 0 [] (by decide) (by decide) (by decide) (by decide)
     (by decide) (by decide) (by decide),
   claim_c3_amended.2.2.2 s2FrameA (by decide)⟩

/-- C4: refuted for the datagram and one-shot-stream modes. The single-frame
parser never checks the version byte: a 26-byte datagram of all zero bytes
(version byte 0) parses successfully and the frame is handed to the channel. -/
theorem claim_c4_counterexample :
    handle_single_frame_datagramlike (List.replicate 26 0) =
      some (.ok { width := 0, height := 0, rgba_data := [], sequence := 0,
                  frame_type := .RawFrame }) := by
  rfl

/-- C4 (amended): the continuous byte-stream parser rejects version ≠ 1 with a
protocol error, but the single-frame parser used for one-shot streams and
datagrams ignores the version byte entirely and accepts any version; in every
mode a frame whose frame-type byte is outside {0,1,2,3} is never enqueued — the
single-frame parser returns an error, and the byte-stream reassembler consumes
and skips the frame. -/
theorem claim_c4_amended :
    (∀ chunks : List (List Nat), 26 ≤ chunks.flatten.length →
      readField chunks.flatten 0 1 ≠ 1 → ∃ e, runStream [] chunks = .error e) ∧
    (∀ data : List Nat, 26 ≤ data.length →
      readField data 22 4 ≤ MAX_FRAME_PAYLOAD_SIZE → 4 ≤ readField data 1 1 →
      ∃ m, handle_single_frame_datagramlike data = some (.error m)) ∧
    (∀ (t sq ts w h : Nat) (payload : List Nat),
      4 ≤ t → t < 2 ^ 8 → sq < 2 ^ 64 → ts < 2 ^ 64 → w < 2 ^ 16 → h < 2 ^ 16 →
      payload.length ≤ 16 * 1024 * 1024 →
      runStream [] [headerBytes 1 t sq ts w h payload.length ++ payload] = .ok []) ∧
    (∀ data : List Nat, 26 ≤ data.length →
      readField data 22 4 ≤ MAX_FRAME_PAYLOAD_SIZE → readField data 1 1 < 4 →
      readField data 22 4 ≤ data.length - 26 →
      ∃ fd, handle_single_frame_datagramlike data = some (.ok fd)) :=
  ⟨stream_rejects_bad_version, dgram_bad_frame_type, stream_skips_unknown_tag,
   dgram_ignores_version⟩

/-- Witness for C4 (amended) at concrete streams and datagrams (the last
conjunct applied to a version-9 datagram that is nonetheless accepted). -/
theorem claim_c4_amended_witness :
    (∃ e, runStream [] [List.replicate 26 2] = .error e) ∧
    (∃ m, handle_single_frame_datagramlike (1 :: 4 :: List.replicate 24 0) =
      some (.error m)) ∧
    runStream [] [headerBytes 1 9 0 0 0 0 (List.length ([] : List Nat)) ++ ([] : List Nat)] = .ok [] ∧
    (∃ fd, handle_single_frame_datagramlike (9 :: List.replicate 25 0) =
      some (.ok fd)) :=
  ⟨claim_c4_amended.1 [List.replicate 26 2] (by decide) (by decide),
   claim_c4_amended.2.1 (1 :: 4 :: List.replicate 24 0) (by decide) (by decide)
     (by decide),
   claim_c4_amended.2.2.1 9 0 0 0 0 [] (by decide) (by decide) (by decide) (by decide)
     (by decide) (by decide) (by decide),
   claim_c4_amended.2.2.2 (9 :: List.replicate 25 0) (by decide) (by decide) (by decide)
     (by decide)⟩

/-- C5: the color conversion computes exactly the claimed fixed-point formula —
`Y = ((y - 16) * 1192) >> 10`, `R = Y + (1836·V) >> 10`,
`G = Y - (218·U + 545·V) >> 10`, `B = Y + (2160·U) >> 10` with `U = u - 128`,
`V = v - 128`, each clamped to [0, 255] — and on the anchor inputs
(235, 128, 128) it yields (254, 254, 254) (all within 1 of 255) and on
(16, 128, 128) it yields (0, 0, 0). -/
theorem claim_c5_color_conversion :
    (∀ y u v : Nat,
      yuv_to_rgb_bt709_limited y u v =
        (clamp255 (asr10 (((y : Int) - 16) * 1192) + asr10 (1836 * ((v : Int) - 128))),
         clamp255 (asr10 (((y : Int) - 16) * 1192) -
           asr10 (218 * ((u : Int) - 128) + 545 * ((v : Int) - 128))),
         clamp255 (asr10 (((y : Int) - 16) * 1192) + asr10 (2160 * ((u : Int) - 128))))) ∧
    yuv_to_rgb_bt709_limited 235 128 128 = (254, 254, 254) ∧
    (255 - 254 : Int) ≤ 1 ∧
    yuv_to_rgb_bt709_limited 16 128 128 = (0, 0, 0) := by
  refine ⟨fun y u v => rfl, by decide, by decide, by decide⟩

/-- C6: the Raw-frame presenter arm keeps the framebuffer length, overwrites
exactly the first `min(framebuffer_len, payload_len / 4)` pixels with
`(r << 16) | (g << 8) | b` read from consecutive 4-byte groups (alpha ignored),
leaves the rest unchanged; and for the S1 scenario frame (2 x 2, payload
red green blue white) the resulting framebuffer is
`[0x00FF0000, 0x0000FF00, 0x000000FF, 0x00FFFFFF]` from any state satisfying
the framebuffer invariant. -/
theorem claim_c6_raw_frame :
    (∀ (buffer data : List Nat),
      (renderRawInto buffer data).length = buffer.length ∧
      ∀ i, i < buffer.length →
        (renderRawInto buffer data).getD i 0 =
          if i < min buffer.length (data.length / 4) then
            data.getD (4 * i) 0 * 65536 + data.getD (4 * i + 1) 0 * 256 +
              data.getD (4 * i + 2) 0
          else buffer.getD i 0) ∧
    (∀ (h264 : PState → List Nat → PState) (s : PState),
      s.buffer.length = s.width * s.height →
      presenterStep h264 s s1Frame =
        { width := 2, height := 2, buffer := [16711680, 65280, 255, 16777215] }) := by
  refine ⟨fun buffer data => ⟨length_renderRawInto buffer data, fun i hi => ?_⟩,
    presenterStep_s1⟩
  rw [getD_renderRawInto buffer data i hi]
  rfl

/-- Witness for C6 on a concrete 5-pixel buffer (one pixel beyond the payload
stays untouched) and the S1 scenario from a 1920 x 1080 zero state. -/
theorem claim_c6_raw_frame_witness :
    (renderRawInto [7, 7, 7, 7, 7]
      [255, 0, 0, 255, 0, 255, 0, 255, 0, 0, 255, 255, 255, 255, 255, 255]).length = 5 ∧
    (renderRawInto [7, 7, 7, 7, 7]
      [255, 0, 0, 255, 0, 255, 0, 255, 0, 0, 255, 255, 255, 255, 255, 255]).getD 4 0 =
      (if 4 < min (List.length [7, 7, 7, 7, 7]) 4 then 255 * 65536 + 255 * 256 + 255
       else 7) ∧
    presenterStep (fun s _ => s)
      { width := 4, height := 1, buffer := [9, 9, 9, 9] } s1Frame =
      { width := 2, height := 2, buffer := [16711680, 65280, 255, 16777215] } := by
  refine ⟨(claim_c6_raw_frame.1 _ _).1, ?_, claim_c6_raw_frame.2 (fun s _ => s) _ (by decide)⟩
  have h := (claim_c6_raw_frame.1 [7, 7, 7, 7, 7]
    [255, 0, 0, 255, 0, 255, 0, 255, 0, 0, 255, 255, 255, 255, 255, 255]).2 4 (by decide)
  simpa using h

end ThunderMirror
